/-
Verification of the repository export orchestrator (package `exporter`).

The development shallowly embeds the Go source of the exporter:
`Repository.RunMany`, `Repository.Handle`, `Repository.getJobInput`,
`Repository.GetProgress`, `modifyUrl`, `getJobGroupId`, `publishSSE` and the
constants of the file.  External collaborators that the orchestrator merely
calls (the remote hosting client, the repository store, the git push service,
the URL parser of the standard library, the remote delete call) are modelled
as oracles: their outcomes are inputs of the embedded functions, while every
piece of control flow of the exporter itself is translated from the source.

Go's dynamic semantics is kept: calling `Error()` on a nil `error` interface
value is a nil-pointer dereference panic, modelled by the `GoResult.panics`
outcome.
-/
import Mathlib

set_option maxRecDepth 100000
set_option maxHeartbeats 1000000

namespace Exporter

/-- Target account descriptor, from the source (`HarnessCodeInfo`). -/
structure HarnessCodeInfo where
  AccountId : String
  ProjectIdentifier : String
  OrgIdentifier : String
  Token : String
  deriving Repr, DecidableEq

/-- Export request payload, from the source (`Input`). `ID` is a Go `int64`,
modelled as `Int`. -/
structure Input where
  UID : String
  ID : Int
  Description : String
  IsPublic : Bool
  HarnessCodeInfo : HarnessCodeInfo
  deriving Repr, DecidableEq

/-- Modelled from the spec: the local repository record (`types.Repository`,
not under src/); only the fields the exporter reads are kept. -/
structure Repo where
  ID : Int
  ParentID : Int
  UID : String
  Description : String
  IsPublic : Bool
  DefaultBranch : String
  GitUID : String
  deriving Repr, DecidableEq

/-- The remote repository handle returned by a successful remote creation:
remote unique id and clone URL (spec §3, "Remote Repository Handle"). -/
structure RemoteRepo where
  UID : String
  GitURL : String
  deriving Repr, DecidableEq

/-- Modelled from the spec: a job envelope (`job.Definition`, not under src/):
identity, type tag, max-retry count, timeout (nanoseconds, Go
`time.Duration`), and the opaque encoded data (spec §3, "Job Envelope"). -/
structure Definition where
  UID : String
  JobType : String
  MaxRetries : Nat
  Timeout : Int
  Data : String
  deriving Repr, DecidableEq

/-- Modelled from the spec: a per-job progress status, drawn from
queued/running/succeeded/failed (spec §6). -/
inductive JobStatus where
  | queued
  | running
  | succeeded
  | failed
  deriving Repr, DecidableEq

/-- Modelled from the spec: a per-job progress record (`types.JobProgress`,
not under src/). -/
structure JobProgress where
  status : JobStatus
  deriving Repr, DecidableEq

/-- Modelled from the spec: `job.FailProgress()`, the synthetic failed
progress entry (spec §4.4). -/
def failProgress : JobProgress :=
  { status := JobStatus.failed }

/-- The encryption service consumed by the codec (spec §6): `encrypt` and
`decrypt`, each fallible.  Bytes are `Nat` values below 256. -/
structure Encrypter where
  enc : String → Except String (List Nat)
  dec : List Nat → Except String String

/-- Result of one Go call returning `(string, error)`, with the additional
runtime-panic outcome of Go's dynamic semantics. -/
inductive GoResult where
  | ok
  | err (msg : String)
  | panics
  deriving Repr, DecidableEq

/-- A published server-sent event: owner scope, event type, payload
(`sseStreamer.Publish` arguments in `publishSSE`). -/
structure SSEEvent where
  parentId : Int
  eventType : String
  payload : Repo
  deriving Repr, DecidableEq

/-- Modelled from the spec: the SSE event type
`enum.SSETypeRepositoryExportCompleted` (spec §6 names it
`repository_export_completed`). -/
def sseTypeRepositoryExportCompleted : String := "repository_export_completed"

/-- Observable outcome of one `Handle` execution: returned result, the list of
remote uids passed to `DeleteRepo`, the list of published SSE events, and
whether `PushRemote` was invoked. -/
structure HandleOutput where
  result : GoResult
  deleteCalls : List String
  sseEvents : List SSEEvent
  pushAttempted : Bool
  deriving Repr, DecidableEq

/-- Oracles for the external collaborators of `Handle`, one per call site:
client construction (`NewHarnessCodeClient`), repository lookup
(`repoStore.Find`), remote creation (`client.CreateRepo`), URL parsing
(`url.Parse` inside `modifyUrl`), push (`git.PushRemote`, `none` meaning a nil
error), and remote deletion (`client.DeleteRepo`).  The decrypting half of the
codec is the `encrypter` field, used by `getJobInput`. -/
structure HandleDeps where
  encrypter : Encrypter
  clientRes : Except String Unit
  findRes : Except String Repo
  createRes : Except String RemoteRepo
  urlParseRes : Except String String
  pushRes : Option String
  deleteRes : Option String

/-- Decidable equality of `Except` results, for concrete evaluation. -/
instance {ε α : Type} [DecidableEq ε] [DecidableEq α] : DecidableEq (Except ε α) := fun a b =>
  match a, b with
  | Except.ok x, Except.ok y =>
    if h : x = y then isTrue (by rw [h]) else isFalse (by intro hc; cases hc; exact h rfl)
  | Except.error x, Except.error y =>
    if h : x = y then isTrue (by rw [h]) else isFalse (by intro hc; cases hc; exact h rfl)
  | Except.ok _, Except.error _ => isFalse (by intro hc; cases hc)
  | Except.error _, Except.ok _ => isFalse (by intro hc; cases hc)

/-- Go's `strings.Contains`: `sub` occurs as a contiguous substring of
`s`. -/
def goContains (s sub : String) : Bool :=
  decide (sub.data <:+: s.data)

/-- Base64 alphabet index of one character (RFC 4648 standard alphabet), the
decoding table of `base64.StdEncoding`. -/
def b64Val (c : Char) : Option Nat :=
  let n := c.toNat
  if 65 ≤ n ∧ n ≤ 90 then some (n - 65)
  else if 97 ≤ n ∧ n ≤ 122 then some (n - 97 + 26)
  else if 48 ≤ n ∧ n ≤ 57 then some (n - 48 + 52)
  else if n = 43 then some 62
  else if n = 47 then some 63
  else none

/-- Base64 alphabet character of one 6-bit value (RFC 4648 standard
alphabet), the encoding table of `base64.StdEncoding`. -/
def b64Chr (n : Nat) : Char :=
  if n < 26 then Char.ofNat (65 + n)
  else if n < 52 then Char.ofNat (97 + (n - 26))
  else if n < 62 then Char.ofNat (48 + (n - 52))
  else if n = 62 then Char.ofNat 43
  else Char.ofNat 47

/-- Go's `base64.StdEncoding.EncodeToString`: standard base64 with `=` padding,
three bytes per four output characters. -/
def b64EncodeL : List Nat → List Char
  | [] => []
  | [b1] => [b64Chr (b1 / 4), b64Chr (b1 % 4 * 16), '=', '=']
  | [b1, b2] => [b64Chr (b1 / 4), b64Chr (b1 % 4 * 16 + b2 / 16), b64Chr (b2 % 16 * 4), '=']
  | b1 :: b2 :: b3 :: rest =>
    b64Chr (b1 / 4) :: b64Chr (b1 % 4 * 16 + b2 / 16) :: b64Chr (b2 % 16 * 4 + b3 / 64) ::
      b64Chr (b3 % 64) :: b64EncodeL rest

/-- Go's `base64.StdEncoding.DecodeString`: decodes four characters to three bytes,
handling the one- and two-byte padded final groups; malformed input yields
`none`. -/
def b64DecodeL : List Char → Option (List Nat)
  | [] => some []
  | a :: b :: c :: d :: rest =>
    if rest.isEmpty ∧ c = '=' ∧ d = '=' then
      match b64Val a, b64Val b with
      | some x, some y => some [x * 4 + y / 16]
      | _, _ => none
    else if rest.isEmpty ∧ d = '=' then
      match b64Val a, b64Val b, b64Val c with
      | some x, some y, some z => some [x * 4 + y / 16, y % 16 * 16 + z / 4]
      | _, _, _ => none
    else
      match b64Val a, b64Val b, b64Val c, b64Val d with
      | some x, some y, some z, some w =>
        match b64DecodeL rest with
        | some bytes => some ((x * 4 + y / 16) :: (y % 16 * 16 + z / 4) :: (z % 4 * 64 + w) :: bytes)
        | none => none
      | _, _, _, _ => none
  | _ => none

/-- String form of `base64.StdEncoding.EncodeToString`. -/
def base64Encode (bytes : List Nat) : String :=
  String.mk (b64EncodeL bytes)

/-- String form of `base64.StdEncoding.DecodeString`. -/
def base64Decode (s : String) : Option (List Nat) :=
  b64DecodeL s.data

/-- Lowercase hexadecimal digit, as emitted by Go's JSON string escaper. -/
def hexDig (n : Nat) : Char :=
  if n < 10 then Char.ofNat (48 + n) else Char.ofNat (97 + (n - 10))

/-- Value of one hexadecimal digit (either case), as accepted by a JSON
string unescaper. -/
def hexVal (c : Char) : Option Nat :=
  let n := c.toNat
  if 48 ≤ n ∧ n ≤ 57 then some (n - 48)
  else if 97 ≤ n ∧ n ≤ 102 then some (n - 87)
  else if 65 ≤ n ∧ n ≤ 70 then some (n - 55)
  else none

/-- The `\uXXXX` escape of one character with code point below 0x10000. -/
def uEsc (c : Char) : List Char :=
  ['\\', 'u', hexDig (c.toNat / 4096 % 16), hexDig (c.toNat / 256 % 16),
    hexDig (c.toNat / 16 % 16), hexDig (c.toNat % 16)]

/-- Escape of one character inside a JSON string, following Go's
`encoding/json` encoder: quote and backslash get backslash escapes, newline,
carriage return and tab get `\n`, `\r`, `\t`, other control characters and
(because HTML escaping is on by default) the angle brackets and ampersand get
`\u00xx` escapes, and U+2028 and U+2029 get their `\u` escapes. -/
def escChar (c : Char) : List Char :=
  if c = '"' then ['\\', '"']
  else if c = '\\' then ['\\', '\\']
  else if c = '\n' then ['\\', 'n']
  else if c = '\r' then ['\\', 'r']
  else if c = '\t' then ['\\', 't']
  else if c = '<' ∨ c = '>' ∨ c = '&' then uEsc c
  else if c.toNat < 32 then uEsc c
  else if c.toNat = 8232 ∨ c.toNat = 8233 then uEsc c
  else [c]

/-- JSON escape of a whole character sequence. -/
def escStringL : List Char → List Char
  | [] => []
  | c :: cs => escChar c ++ escStringL cs

/-- Character denoted by one single-letter JSON escape. -/
def unescSimple (e : Char) : Option Char :=
  if e = '"' then some '"'
  else if e = '\\' then some '\\'
  else if e = '/' then some '/'
  else if e = 'n' then some '\n'
  else if e = 'r' then some '\r'
  else if e = 't' then some '\t'
  else if e = 'b' then some (Char.ofNat 8)
  else if e = 'f' then some (Char.ofNat 12)
  else none

/-- Parses the body of a JSON string up to and including the closing quote,
handling backslash escapes and `\uXXXX` escapes; returns the decoded
characters and the remaining input. -/
def parseStringBody : List Char → Option (List Char × List Char)
  | [] => none
  | c :: rest =>
    if c = '"' then some ([], rest)
    else if c = '\\' then
      match rest with
      | [] => none
      | e :: rest' =>
        if e = 'u' then
          match rest' with
          | h1 :: h2 :: h3 :: h4 :: rest'' =>
            match hexVal h1, hexVal h2, hexVal h3, hexVal h4 with
            | some v1, some v2, some v3, some v4 =>
              match parseStringBody rest'' with
              | some (s, r) => some (Char.ofNat (v1 * 4096 + v2 * 256 + v3 * 16 + v4) :: s, r)
              | none => none
            | _, _, _, _ => none
          | _ => none
        else
          match unescSimple e with
          | some ch =>
            match parseStringBody rest' with
            | some (s, r) => some (ch :: s, r)
            | none => none
          | none => none
    else
      match parseStringBody rest with
      | some (s, r) => some (c :: s, r)
      | none => none

/-- Decimal digit character. -/
def digitChar (d : Nat) : Char :=
  Char.ofNat (48 + d)

/-- Value of a decimal digit character. -/
def digitVal (c : Char) : Option Nat :=
  if 48 ≤ c.toNat ∧ c.toNat ≤ 57 then some (c.toNat - 48) else none

/-- Fuel-driven recursion for decimal printing (structural in the fuel, so
that the definition computes by kernel reduction). -/
def natCharsAux : Nat → Nat → List Char
  | 0, _ => []
  | fuel + 1, n => if n < 10 then [digitChar n] else natCharsAux fuel (n / 10) ++ [digitChar (n % 10)]

/-- Decimal digits of a natural number, most significant first (the digits
Go's `%d` / JSON number encoding emits). -/
def natChars (n : Nat) : List Char :=
  natCharsAux (n + 1) n

/-- Decimal form of a Go `int64` value, minus sign first when negative. -/
def intChars (i : Int) : List Char :=
  if i < 0 then '-' :: natChars (-i).toNat else natChars i.toNat

/-- Consumes leading decimal digits, accumulating their value onto `acc`. -/
def parseDigits (acc : Nat) : List Char → Nat × List Char
  | [] => (acc, [])
  | c :: rest =>
    match digitVal c with
    | some d => parseDigits (acc * 10 + d) rest
    | none => (acc, c :: rest)

/-- Whether the input starts with a decimal digit. -/
def startsWithDigit : List Char → Bool
  | [] => false
  | c :: _ => (digitVal c).isSome

/-- Parses a (possibly negative) decimal integer. -/
def parseIntChars (l : List Char) : Option (Int × List Char) :=
  match l with
  | [] => none
  | c :: rest =>
    if c = '-' then
      if startsWithDigit rest then
        let p := parseDigits 0 rest
        some (-(p.1 : Int), p.2)
      else none
    else if (digitVal c).isSome then
      let p := parseDigits 0 (c :: rest)
      some ((p.1 : Int), p.2)
    else none

/-- Strips the expected sequence `pre` from the front of the input. -/
def stripPre : List Char → List Char → Option (List Char)
  | [], l => some l
  | _ :: _, [] => none
  | p :: ps, c :: cs => if c = p then stripPre ps cs else none

/-- JSON booleans as Go emits them. -/
def boolChars (b : Bool) : List Char :=
  if b then "true".data else "false".data

/-- Parses a JSON boolean literal. -/
def parseBoolChars (l : List Char) : Option (Bool × List Char) :=
  match stripPre ("true".data) l with
  | some r => some (true, r)
  | none =>
    match stripPre ("false".data) l with
    | some r => some (false, r)
    | none => none

/-- Quoted JSON string of `s`, as Go's `encoding/json` emits it. -/
def qstrL (s : String) : List Char :=
  '"' :: (escStringL s.data ++ ['"'])

/-- Parses a quoted JSON string. -/
def parseQ (l : List Char) : Option (String × List Char) :=
  match l with
  | [] => none
  | c :: rest =>
    if c = '"' then
      match parseStringBody rest with
      | some (cs, r) => some (String.mk cs, r)
      | none => none
    else none

/-- Opening brace character. -/
def lbrace : Char := Char.ofNat 123

/-- Closing brace character. -/
def rbrace : Char := Char.ofNat 125

/-- Literal JSON segments of the `json.Marshal` output for `Input`, fixed by
the struct tags `uid`, `id`, `description`, `is_public`, `harness_code_info`,
`account_id`, `project_identifier`, `org_identifier`, `token` and Go's
struct-order field emission. -/
def seg1 : List Char := lbrace :: "\"uid\":".data

/-- Segment before the `id` field. -/
def seg2 : List Char := ",\"id\":".data

/-- Segment before the `description` field. -/
def seg3 : List Char := ',' :: "\"description\":".data

/-- Segment before the `is_public` field. -/
def seg4 : List Char := ",\"is_public\":".data

/-- Segment before the nested `harness_code_info` object and its
`account_id` field. -/
def seg5 : List Char := (",\"harness_code_info\":".data ++ [lbrace]) ++ "\"account_id\":".data

/-- Segment before the `project_identifier` field. -/
def seg6 : List Char := ",\"project_identifier\":".data

/-- Segment before the `org_identifier` field. -/
def seg7 : List Char := ",\"org_identifier\":".data

/-- Segment before the `token` field. -/
def seg8 : List Char := ",\"token\":".data

/-- Closing braces of the nested and outer object. -/
def seg9 : List Char := [rbrace, rbrace]

/-- Go's `json.Marshal` of an `Input` value: the fields in struct order with their
tag names, strings escaped as Go escapes them. -/
def jsonMarshalInputL (inp : Input) : List Char :=
  seg1 ++ qstrL inp.UID ++ seg2 ++ intChars inp.ID ++ seg3 ++ qstrL inp.Description ++
    seg4 ++ boolChars inp.IsPublic ++ seg5 ++ qstrL inp.HarnessCodeInfo.AccountId ++
    seg6 ++ qstrL inp.HarnessCodeInfo.ProjectIdentifier ++
    seg7 ++ qstrL inp.HarnessCodeInfo.OrgIdentifier ++
    seg8 ++ qstrL inp.HarnessCodeInfo.Token ++ seg9

/-- String form of `json.Marshal` for `Input`. -/
def jsonMarshalInput (inp : Input) : String :=
  String.mk (jsonMarshalInputL inp)

/-- JSON decoding of an `Input` document: parses the object shape
`json.Marshal` produces for `Input` (the decoder side of the codec, as
exercised on documents of that shape; trailing input is ignored, as
`json.Decoder.Decode` reads one value). -/
def jsonParseInputL (l : List Char) : Option Input :=
  match stripPre seg1 l with
  | none => none
  | some l1 =>
  match parseQ l1 with
  | none => none
  | some (uid, l2) =>
  match stripPre seg2 l2 with
  | none => none
  | some l3 =>
  match parseIntChars l3 with
  | none => none
  | some (id, l4) =>
  match stripPre seg3 l4 with
  | none => none
  | some l5 =>
  match parseQ l5 with
  | none => none
  | some (description, l6) =>
  match stripPre seg4 l6 with
  | none => none
  | some l7 =>
  match parseBoolChars l7 with
  | none => none
  | some (isPublic, l8) =>
  match stripPre seg5 l8 with
  | none => none
  | some l9 =>
  match parseQ l9 with
  | none => none
  | some (accountId, l10) =>
  match stripPre seg6 l10 with
  | none => none
  | some l11 =>
  match parseQ l11 with
  | none => none
  | some (projectIdentifier, l12) =>
  match stripPre seg7 l12 with
  | none => none
  | some l13 =>
  match parseQ l13 with
  | none => none
  | some (orgIdentifier, l14) =>
  match stripPre seg8 l14 with
  | none => none
  | some l15 =>
  match parseQ l15 with
  | none => none
  | some (token, l16) =>
  match stripPre seg9 l16 with
  | none => none
  | some _ =>
    some { UID := uid, ID := id, Description := description, IsPublic := isPublic,
           HarnessCodeInfo := { AccountId := accountId, ProjectIdentifier := projectIdentifier,
                                OrgIdentifier := orgIdentifier, Token := token } }

/-- String form of the `Input` JSON decoder. -/
def jsonParseInput (s : String) : Option Input :=
  jsonParseInputL s.data

/-- Go's `unicode.IsSpace` (the White_Space property), used by
`strings.TrimSpace`. -/
def goIsSpace (c : Char) : Bool :=
  decide (c.toNat = 32 ∨ (9 ≤ c.toNat ∧ c.toNat ≤ 13) ∨ c.toNat = 133 ∨ c.toNat = 160 ∨
    c.toNat = 5760 ∨ (8192 ≤ c.toNat ∧ c.toNat ≤ 8202) ∨ c.toNat = 8232 ∨ c.toNat = 8233 ∨
    c.toNat = 8239 ∨ c.toNat = 8287 ∨ c.toNat = 12288)

/-- Behaviour of `strings.TrimSpace` on a character sequence. -/
def trimSpaceL (l : List Char) : List Char :=
  ((l.dropWhile goIsSpace).reverse.dropWhile goIsSpace).reverse

/-- Go's `strings.TrimSpace`. -/
def trimSpace (s : String) : String :=
  String.mk (trimSpaceL s.data)

/-- Fixed-width three-byte big-endian encoding of each code point of the plaintext. -/
def encBytes : List Char → List Nat
  | [] => []
  | c :: cs => c.toNat / 65536 :: c.toNat / 256 % 256 :: c.toNat % 256 :: encBytes cs

/-- Inverse of `encBytes`; fails on input whose length is not a multiple of
three. -/
def decBytes : List Nat → Option (List Char)
  | [] => some []
  | a :: b :: c :: rest =>
    match decBytes rest with
    | some cs => some (Char.ofNat (a * 65536 + b * 256 + c) :: cs)
    | none => none
  | _ => none

/-- Modelled from the spec: the process-wide symmetric encryption service
(package `encrypt`, not under src/).  The spec requires only that `decrypt`
invert `encrypt` and that ciphertext be a byte sequence; the cipher itself is
out of scope, so it is modelled as an injective byte encoding of the
plaintext's code points, with `decrypt` failing on malformed ciphertext. -/
def specEncrypter : Encrypter where
  enc s := Except.ok (encBytes s.data)
  dec bs :=
    match decBytes bs with
    | some cs => Except.ok (String.mk cs)
    | none => Except.error ("invalid ciphertext")

/-- Source function `getJobGroupId`: `fmt.Sprintf("export_space_%d", spaceId)`. -/
def getJobGroupId (spaceId : Int) : String :=
  "export_space_" ++ String.mk (intChars spaceId)

/-- Constant `exportJobMaxRetries`. -/
def exportJobMaxRetries : Nat := 1

/-- Constant `exportJobMaxDuration`: 45 minutes as a Go `time.Duration`
(nanoseconds). -/
def exportJobMaxDuration : Int := 45 * 60 * 1000000000

/-- Constant `jobType`. -/
def jobType : String := "repository_export"

/-- Job identity `fmt.Sprintf(exportRepoJobUid, repository.ID)` of one
repository export. -/
def exportRepoJobUidFor (id : Int) : String :=
  "export_repo_" ++ String.mk (intChars id)

/-- The per-repository `Input` built inside `RunMany`'s loop. -/
def jobDataFor (info : HarnessCodeInfo) (repository : Repo) : Input :=
  { UID := repository.UID, ID := repository.ID, Description := repository.Description,
    IsPublic := repository.IsPublic, HarnessCodeInfo := info }

/-- The payload encoding of `RunMany` (lines 79-96): `json.Marshal`, then
`strings.TrimSpace`, then `encrypter.Encrypt`, then base64 — with the error
wrapping of the source.  `json.Marshal` of an `Input` value cannot fail (all
field types are marshalable), so the marshal-error branch of the source is
vacuous in the model. -/
def encodeRequest (E : Encrypter) (inp : Input) : Except String String :=
  let data := jsonMarshalInput inp
  let strData := trimSpace data
  match E.enc strData with
  | Except.error e => Except.error ("failed to encrypt job input: " ++ e)
  | Except.ok encryptedData => Except.ok (base64Encode encryptedData)

/-- One iteration of `RunMany`'s loop: builds the job envelope of one
repository. -/
def buildJobDefinition (E : Encrypter) (info : HarnessCodeInfo) (repository : Repo) :
    Except String Definition :=
  match encodeRequest E (jobDataFor info repository) with
  | Except.error e => Except.error e
  | Except.ok data =>
    Except.ok { UID := exportRepoJobUidFor repository.ID, JobType := jobType,
                MaxRetries := exportJobMaxRetries, Timeout := exportJobMaxDuration,
                Data := data }

/-- Loop of `RunMany` over the repository list, in order, stopping at the
first encoding error as the source's early `return` does. -/
def buildJobDefinitions (E : Encrypter) (info : HarnessCodeInfo) :
    List Repo → Except String (List Definition)
  | [] => Except.ok []
  | repository :: rest =>
    match buildJobDefinition E info repository with
    | Except.error e => Except.error e
    | Except.ok d =>
      match buildJobDefinitions E info rest with
      | Except.error e => Except.error e
      | Except.ok ds => Except.ok (d :: ds)

/-- Outcome of `RunMany`: either the batch was handed to the job engine
(`scheduler.RunJobs` invoked with the group identity and the envelopes — the
only call site of the engine), or an encoding error was returned before any
submission. -/
inductive RunManyOut where
  | submitted (jobGroupId : String) (jobDefinitions : List Definition)
  | failed (e : String)
  deriving Repr, DecidableEq

/-- Source method `Repository.RunMany`: builds one envelope per repository and submits the
whole batch under the group identity derived from the space id. -/
def RunMany (E : Encrypter) (spaceId : Int) (info : HarnessCodeInfo)
    (repos : List Repo) : RunManyOut :=
  match buildJobDefinitions E info repos with
  | Except.error e => RunManyOut.failed e
  | Except.ok defs => RunManyOut.submitted (getJobGroupId spaceId) defs

/-- Source method `Repository.getJobInput`: base64-decode, decrypt, JSON-decode, with the
error wrapping of the source. -/
def getJobInput (E : Encrypter) (data : String) : Except String Input :=
  match base64Decode data with
  | none => Except.error ("failed to base64 decode job input")
  | some encrypted =>
    match E.dec encrypted with
    | Except.error e => Except.error ("failed to decrypt job input: " ++ e)
    | Except.ok decrypted =>
      match jsonParseInput decrypted with
      | none => Except.error ("failed to unmarshal job input json")
      | some input => Except.ok input

/-- Source function `modifyUrl`: `url.Parse` (standard library, modelled as the oracle
`parseRes`) followed by embedding the fixed username literal `token` and the
access token as the URL's credentials. -/
def modifyUrl (parseRes : Except String String) (token : String) : Except String String :=
  match parseRes with
  | Except.error e => Except.error e
  | Except.ok parsedUrl => Except.ok ("token:" ++ token ++ "@" ++ parsedUrl)

/-- Source function `publishSSE`: the event handed to `sseStreamer.Publish` (owner scope id,
completed-export event type, the local repository record); a publish error is
only logged, so the model records the event unconditionally. -/
def publishSSE (repository : Repo) : SSEEvent :=
  { parentId := repository.ParentID, eventType := sseTypeRepositoryExportCompleted,
    payload := repository }

/-- Source method `Repository.Handle` (lines 108-163), the per-job export executor.  The
oracle fields of `d` stand for the external calls in source order.  Note line
146 of the source evaluates `err.Error()` on the push result before any nil
check: when the push returns a nil error this is a method call on a nil
interface value, a runtime panic, modelled by `GoResult.panics`. -/
def Handle (d : HandleDeps) (data : String) : HandleOutput :=
  match getJobInput d.encrypter data with
  | Except.error e =>
    { result := GoResult.err e, deleteCalls := [], sseEvents := [], pushAttempted := false }
  | Except.ok input =>
    match d.clientRes with
    | Except.error e =>
      { result := GoResult.err e, deleteCalls := [], sseEvents := [], pushAttempted := false }
    | Except.ok _ =>
      match d.findRes with
      | Except.error e =>
        { result := GoResult.err e, deleteCalls := [], sseEvents := [], pushAttempted := false }
      | Except.ok repository =>
        match d.createRes with
        | Except.error e =>
          { result := GoResult.err e, deleteCalls := [], sseEvents := [publishSSE repository],
            pushAttempted := false }
        | Except.ok remoteRepo =>
          match modifyUrl d.urlParseRes input.HarnessCodeInfo.Token with
          | Except.error e =>
            { result := GoResult.err e, deleteCalls := [], sseEvents := [],
              pushAttempted := false }
          | Except.ok _urlWithToken =>
            match d.pushRes with
            | none =>
              { result := GoResult.panics, deleteCalls := [], sseEvents := [],
                pushAttempted := true }
            | some msg =>
              if goContains msg ("empty") then
                { result := GoResult.ok, deleteCalls := [], sseEvents := [],
                  pushAttempted := true }
              else
                { result := GoResult.err msg, deleteCalls := [remoteRepo.UID],
                  sseEvents := [publishSSE repository], pushAttempted := true }

/-- Path predicate for the notification count: decode, client construction
and repository lookup succeeded and the remote-creation call failed (the
terminal path of state `CreatingRemote`). -/
def remoteCreateFailedPath (d : HandleDeps) (data : String) : Prop :=
  (∃ input, getJobInput d.encrypter data = Except.ok input) ∧
  (∃ u, d.clientRes = Except.ok u) ∧
  (∃ repo, d.findRes = Except.ok repo) ∧
  (∃ e, d.createRes = Except.error e)

/-- Path predicate for the notification count: every step up to the push
succeeded and the push failed with an error not classified as
empty-repository (the terminal path through state `Reconciling`). -/
def pushFailedNonEmptyPath (d : HandleDeps) (data : String) : Prop :=
  (∃ input, getJobInput d.encrypter data = Except.ok input) ∧
  (∃ u, d.clientRes = Except.ok u) ∧
  (∃ repo, d.findRes = Except.ok repo) ∧
  (∃ rr, d.createRes = Except.ok rr) ∧
  (∃ u, d.urlParseRes = Except.ok u) ∧
  (∃ msg, d.pushRes = some msg ∧ goContains msg ("empty") = false)

/-- Source method `Repository.GetProgress`: queries the engine for the group derived from
the space id; a nil or empty progress slice is replaced by the single
synthetic failed entry. -/
def GetProgress (sched : String → Except String (List JobProgress)) (spaceId : Int) :
    Except String (List JobProgress) :=
  match sched (getJobGroupId spaceId) with
  | Except.error e => Except.error e
  | Except.ok progress =>
    if progress.length = 0 then Except.ok [failProgress] else Except.ok progress

/-- Concrete target account for witnesses. -/
def sampleInfo : HarnessCodeInfo :=
  { AccountId := "acct", ProjectIdentifier := "proj", OrgIdentifier := "org", Token := "tok" }

/-- Concrete local repository record for witnesses: the spec's scenario
repository (id 42, local name svc-a, default branch main, empty description,
public). -/
def sampleRepo : Repo :=
  { ID := 42, ParentID := 7, UID := "svc-a", Description := "", IsPublic := true,
    DefaultBranch := "main", GitUID := "git-42" }

/-- Concrete remote handle for witnesses, with the spec scenario's clone
URL. -/
def sampleRemote : RemoteRepo :=
  { UID := "svc-a", GitURL := "https://host/svc-a.git" }

/-- Concrete export request for witnesses. -/
def sampleInput : Input := jobDataFor sampleInfo sampleRepo

/-- Concrete encoded job data for witnesses: the encoding of `sampleInput`
(total for the modelled encrypter). -/
def sampleData : String :=
  match encodeRequest specEncrypter sampleInput with
  | Except.ok s => s
  | Except.error _ => ""

/-- Oracle bundle in which every external call succeeds and the push returns
a nil error. -/
def okDeps : HandleDeps :=
  { encrypter := specEncrypter, clientRes := Except.ok (), findRes := Except.ok sampleRepo,
    createRes := Except.ok sampleRemote, urlParseRes := Except.ok ("https://host/svc-a.git"),
    pushRes := none, deleteRes := none }

/-- Oracle bundle in which the push fails with an empty-repository error. -/
def c2Deps : HandleDeps :=
  { okDeps with pushRes := some ("the source repository is empty") }

/-- Oracle bundle in which remote creation succeeds but the clone URL fails
to parse. -/
def c3Deps : HandleDeps :=
  { okDeps with urlParseRes := Except.error ("parse error") }

/-- Oracle bundle in which the push fails with a non-empty-repository error
and the compensating delete itself fails. -/
def c4Deps : HandleDeps :=
  { okDeps with pushRes := some ("network timeout"), deleteRes := some ("remote delete failed") }

/-- Oracle bundle in which remote creation fails. -/
def c5Deps : HandleDeps :=
  { okDeps with createRes := Except.error ("create failed") }

/-- Oracle bundle in which the clone URL returned by the created remote fails
to parse. -/
def c10Deps : HandleDeps :=
  { okDeps with urlParseRes := Except.error ("invalid url") }


/-- Encrypter whose encryption always fails with a key-availability error
(spec section 4.1: encryption may fail with a key/availability error). -/
def failingEncrypter : Encrypter where
  enc _ := Except.error ("key unavailable")
  dec _ := Except.error ("key unavailable")

/-- Concrete two-repository batch for the batch-shape witness. -/
def c7Repos : List Repo := [sampleRepo, { sampleRepo with ID := 7, UID := "svc-b" }]

/-- Outcome of submitting the concrete batch. -/
def c7Out : RunManyOut := RunMany specEncrypter 9 sampleInfo c7Repos

/-- Group identity of the submitted concrete batch. -/
def c7Gid : String :=
  match c7Out with
  | RunManyOut.submitted g _ => g
  | RunManyOut.failed _ => ""

/-- Envelopes of the submitted concrete batch. -/
def c7Defs : List Definition :=
  match c7Out with
  | RunManyOut.submitted _ ds => ds
  | RunManyOut.failed _ => []

theorem data_mk (l : List Char) : (String.mk l).data = l := rfl

theorem char_toNat_lt (c : Char) : c.toNat < 1114112 := by
  rcases c with ⟨v, hv⟩
  show v.toNat < 1114112
  rcases hv with h | ⟨h1, h2⟩
  · have hlt : v.toNat < (55296 : UInt32).toNat := by exact_mod_cast h
    simp [UInt32.toNat] at hlt ⊢
    omega
  · have hlt : v.toNat < (1114112 : UInt32).toNat := by exact_mod_cast h2
    simp [UInt32.toNat] at hlt ⊢
    omega

theorem b64Val_b64Chr : ∀ n < 64, b64Val (b64Chr n) = some n := by decide

theorem b64Chr_ne_pad : ∀ n < 64, b64Chr n ≠ '=' := by decide

theorem b64_roundtrip : ∀ bs : List Nat, (∀ b ∈ bs, b < 256) →
    b64DecodeL (b64EncodeL bs) = some bs := by
  intro bs
  induction bs using b64EncodeL.induct with
  | case1 => intro _; rfl
  | case2 b1 =>
    intro h
    have hb1 : b1 < 256 := h b1 (by simp)
    have h1 := b64Val_b64Chr (b1 / 4) (by omega)
    have h2 := b64Val_b64Chr (b1 % 4 * 16) (by omega)
    simp [b64EncodeL, b64DecodeL, h1, h2]
    omega
  | case3 b1 b2 =>
    intro h
    have hb1 : b1 < 256 := h b1 (by simp)
    have hb2 : b2 < 256 := h b2 (by simp)
    have h1 := b64Val_b64Chr (b1 / 4) (by omega)
    have h2 := b64Val_b64Chr (b1 % 4 * 16 + b2 / 16) (by omega)
    have h3 := b64Val_b64Chr (b2 % 16 * 4) (by omega)
    have h3ne := b64Chr_ne_pad (b2 % 16 * 4) (by omega)
    simp [b64EncodeL, b64DecodeL, h1, h2, h3, h3ne]
    omega
  | case4 b1 b2 b3 rest ih =>
    intro h
    have hb1 : b1 < 256 := h b1 (by simp)
    have hb2 : b2 < 256 := h b2 (by simp)
    have hb3 : b3 < 256 := h b3 (by simp)
    have hrest : ∀ b ∈ rest, b < 256 := fun b hb => h b (by simp [hb])
    have h1 := b64Val_b64Chr (b1 / 4) (by omega)
    have h2 := b64Val_b64Chr (b1 % 4 * 16 + b2 / 16) (by omega)
    have h3 := b64Val_b64Chr (b2 % 16 * 4 + b3 / 64) (by omega)
    have h4 := b64Val_b64Chr (b3 % 64) (by omega)
    have h3ne := b64Chr_ne_pad (b2 % 16 * 4 + b3 / 64) (by omega)
    have h4ne := b64Chr_ne_pad (b3 % 64) (by omega)
    simp [b64EncodeL, b64DecodeL, h1, h2, h3, h4, h3ne, h4ne, ih hrest]
    refine ⟨by omega, by omega, by omega⟩

theorem encBytes_lt : ∀ cs : List Char, ∀ b ∈ encBytes cs, b < 256 := by
  intro cs
  induction cs with
  | nil => intro b hb; simp [encBytes] at hb
  | cons c cs ih =>
    intro b hb
    have hc := char_toNat_lt c
    simp [encBytes] at hb
    rcases hb with h | h | h | h
    · omega
    · omega
    · omega
    · exact ih b h

theorem decBytes_encBytes : ∀ cs : List Char, decBytes (encBytes cs) = some cs := by
  intro cs
  induction cs with
  | nil => rfl
  | cons c cs ih =>
    have hc := char_toNat_lt c
    have hrec : c.toNat / 65536 * 65536 + c.toNat / 256 % 256 * 256 + c.toNat % 256 = c.toNat := by
      omega
    simp [encBytes, decBytes, ih, hrec]

theorem hexVal_hexDig : ∀ n < 16, hexVal (hexDig n) = some n := by decide

theorem unescSimple_u : unescSimple 'u' = none := by decide

theorem psb_quote (tail : List Char) : parseStringBody ('"' :: tail) = some ([], tail) := by
  rw [parseStringBody.eq_def]
  simp

theorem psb_uStep (e1 e2 e3 e4 : Char) (tail : List Char) :
    parseStringBody ('\\' :: 'u' :: e1 :: e2 :: e3 :: e4 :: tail) =
      (match hexVal e1, hexVal e2, hexVal e3, hexVal e4 with
      | some v1, some v2, some v3, some v4 =>
        (match parseStringBody tail with
        | some (s, r) => some (Char.ofNat (v1 * 4096 + v2 * 256 + v3 * 16 + v4) :: s, r)
        | none => none)
      | _, _, _, _ => none) := rfl

theorem parse_uEsc (c : Char) (hlt : c.toNat < 65536) (tail cs rest : List Char)
    (h : parseStringBody tail = some (cs, rest)) :
    parseStringBody (uEsc c ++ tail) = some (c :: cs, rest) := by
  have h1 := hexVal_hexDig (c.toNat / 4096 % 16) (by omega)
  have h2 := hexVal_hexDig (c.toNat / 256 % 16) (by omega)
  have h3 := hexVal_hexDig (c.toNat / 16 % 16) (by omega)
  have h4 := hexVal_hexDig (c.toNat % 16) (by omega)
  have hrec : c.toNat / 4096 % 16 * 4096 + c.toNat / 256 % 16 * 256 +
      c.toNat / 16 % 16 * 16 + c.toNat % 16 = c.toNat := by omega
  simp [uEsc, psb_uStep, h1, h2, h3, h4, h, hrec]

theorem parse_simpleEsc (c e : Char) (he : unescSimple e = some c) (tail cs rest : List Char)
    (h : parseStringBody tail = some (cs, rest)) :
    parseStringBody ('\\' :: e :: tail) = some (c :: cs, rest) := by
  have hu : e ≠ 'u' := by
    intro h'
    rw [h', unescSimple_u] at he
    cases he
  rw [parseStringBody.eq_def]
  simp [hu, he, h]

theorem escChar_cases (c : Char) :
    (∃ e, escChar c = ['\\', e] ∧ unescSimple e = some c) ∨
    (escChar c = uEsc c ∧ c.toNat < 65536) ∨
    (escChar c = [c] ∧ c ≠ '"' ∧ c ≠ '\\') := by
  by_cases h1 : c = '"'
  · exact Or.inl ⟨'"', by simp [escChar, h1], by rw [h1]; decide⟩
  by_cases h2 : c = '\\'
  · exact Or.inl ⟨'\\', by simp [escChar, h1, h2], by rw [h2]; decide⟩
  by_cases h3 : c = '\n'
  · exact Or.inl ⟨'n', by simp [escChar, h1, h2, h3], by rw [h3]; decide⟩
  by_cases h4 : c = '\r'
  · exact Or.inl ⟨'r', by simp [escChar, h1, h2, h3, h4], by rw [h4]; decide⟩
  by_cases h5 : c = '\t'
  · exact Or.inl ⟨'t', by simp [escChar, h1, h2, h3, h4, h5], by rw [h5]; decide⟩
  by_cases h6 : c = '<' ∨ c = '>' ∨ c = '&'
  · refine Or.inr (Or.inl ⟨by simp [escChar, h1, h2, h3, h4, h5, h6], ?_⟩)
    rcases h6 with h | h | h <;> rw [h] <;> decide
  by_cases h7 : c.toNat < 32
  · exact Or.inr (Or.inl ⟨by simp [escChar, h1, h2, h3, h4, h5, h6, h7], by omega⟩)
  by_cases h8 : c.toNat = 8232 ∨ c.toNat = 8233
  · refine Or.inr (Or.inl ⟨by simp [escChar, h1, h2, h3, h4, h5, h6, h7, h8], ?_⟩)
    rcases h8 with h | h <;> omega
  · exact Or.inr (Or.inr ⟨by simp [escChar, h1, h2, h3, h4, h5, h6, h7, h8], h1, h2⟩)

theorem parseStringBody_esc : ∀ s rest,
    parseStringBody (escStringL s ++ ('"' :: rest)) = some (s, rest) := by
  intro s
  induction s with
  | nil => intro rest; simp [escStringL, psb_quote]
  | cons c cs ih =>
    intro rest
    rcases escChar_cases c with ⟨e, he, hu⟩ | ⟨he, hlt⟩ | ⟨he, hq, hb⟩
    · have heq : escStringL (c :: cs) ++ ('"' :: rest) =
          '\\' :: e :: (escStringL cs ++ ('"' :: rest)) := by simp [escStringL, he]
      rw [heq]
      exact parse_simpleEsc c e hu _ _ _ (ih rest)
    · have heq : escStringL (c :: cs) ++ ('"' :: rest) =
          uEsc c ++ (escStringL cs ++ ('"' :: rest)) := by simp [escStringL, he]
      rw [heq]
      exact parse_uEsc c hlt _ _ _ (ih rest)
    · have heq : escStringL (c :: cs) ++ ('"' :: rest) =
          c :: (escStringL cs ++ ('"' :: rest)) := by simp [escStringL, he]
      rw [heq, parseStringBody.eq_def]
      simp [hq, hb, ih rest]

theorem parseQ_qstr (s : String) (rest : List Char) :
    parseQ (qstrL s ++ rest) = some (s, rest) := by
  have h : qstrL s ++ rest = '"' :: (escStringL s.data ++ ('"' :: rest)) := by
    simp [qstrL]
  rw [h]
  show (match parseStringBody (escStringL s.data ++ ('"' :: rest)) with
        | some (cs, r) => some (String.mk cs, r)
        | none => none) = some (s, rest)
  rw [parseStringBody_esc]

theorem digitVal_digitChar : ∀ d < 10, digitVal (digitChar d) = some d := by decide

theorem natCharsAux_fuel : ∀ n f g, n < f → n < g → natCharsAux f n = natCharsAux g n := by
  intro n
  induction n using Nat.strong_induction_on with
  | _ n ih =>
    intro f g hf hg
    cases f with
    | zero => omega
    | succ f' =>
      cases g with
      | zero => omega
      | succ g' =>
        simp only [natCharsAux]
        by_cases h10 : n < 10
        · simp [h10]
        · rw [if_neg h10, if_neg h10]
          congr 1
          exact ih (n / 10) (by omega) f' g' (by omega) (by omega)

theorem natChars_small (n : Nat) (h : n < 10) : natChars n = [digitChar n] := by
  simp [natChars, natCharsAux, h]

theorem natChars_big (n : Nat) (h : 10 ≤ n) :
    natChars n = natChars (n / 10) ++ [digitChar (n % 10)] := by
  unfold natChars
  conv_lhs => simp only [natCharsAux]
  rw [if_neg (by omega)]
  congr 1
  exact natCharsAux_fuel (n / 10) n (n / 10 + 1) (by omega) (by omega)

theorem natChars_digits : ∀ n, ∀ c ∈ natChars n, (digitVal c).isSome := by
  intro n
  induction n using Nat.strong_induction_on with
  | _ n ih =>
    by_cases h : n < 10
    · rw [natChars_small n h]
      intro c hc
      simp at hc
      rw [hc]
      simp [digitVal_digitChar n h]
    · rw [natChars_big n (by omega)]
      intro c hc
      simp at hc
      rcases hc with hc | hc
      · exact ih (n / 10) (by omega) c hc
      · rw [hc]
        simp [digitVal_digitChar (n % 10) (by omega)]

theorem natChars_ne_nil (n : Nat) : natChars n ≠ [] := by
  by_cases h : n < 10
  · rw [natChars_small n h]; simp
  · rw [natChars_big n (by omega)]; simp

theorem parseDigits_cons (acc : Nat) (c : Char) (t : List Char) :
    parseDigits acc (c :: t) =
      (match digitVal c with
      | some d => parseDigits (acc * 10 + d) t
      | none => (acc, c :: t)) := rfl

theorem parseDigits_stop (acc : Nat) (rest : List Char) (h : startsWithDigit rest = false) :
    parseDigits acc rest = (acc, rest) := by
  cases rest with
  | nil => rfl
  | cons c t =>
    simp [startsWithDigit] at h
    rw [parseDigits_cons]
    cases hd : digitVal c with
    | none => simp
    | some d => rw [hd] at h; simp at h

theorem parseDigits_append (ds : List Char) : ∀ acc rest, (∀ c ∈ ds, (digitVal c).isSome) →
    parseDigits acc (ds ++ rest) =
      parseDigits (ds.foldl (fun a c => a * 10 + ((digitVal c).getD 0)) acc) rest := by
  induction ds with
  | nil => intro acc rest _; simp
  | cons c ds ih =>
    intro acc rest hall
    have hc : (digitVal c).isSome := hall c (by simp)
    cases hd : digitVal c with
    | none => rw [hd] at hc; simp at hc
    | some d =>
      rw [List.cons_append, parseDigits_cons, hd]
      show parseDigits (acc * 10 + d) (ds ++ rest) = _
      rw [ih (acc * 10 + d) rest (fun x hx => hall x (by simp [hx]))]
      simp [List.foldl_cons, hd]

theorem natChars_val : ∀ n acc,
    (natChars n).foldl (fun a c => a * 10 + ((digitVal c).getD 0)) acc =
      acc * 10 ^ (natChars n).length + n := by
  intro n
  induction n using Nat.strong_induction_on with
  | _ n ih =>
    intro acc
    by_cases h : n < 10
    · rw [natChars_small n h]
      simp [digitVal_digitChar n h]
    · rw [natChars_big n (by omega)]
      rw [List.foldl_append]
      rw [ih (n / 10) (by omega) acc]
      simp only [List.foldl_cons, List.foldl_nil, List.length_append, List.length_cons,
        List.length_nil]
      rw [digitVal_digitChar (n % 10) (by omega)]
      simp only [Option.getD_some]
      have hdm : n / 10 * 10 + n % 10 = n := by omega
      calc (acc * 10 ^ (natChars (n / 10)).length + n / 10) * 10 + n % 10
          = acc * (10 ^ (natChars (n / 10)).length * 10) + (n / 10 * 10 + n % 10) := by ring
        _ = acc * 10 ^ ((natChars (n / 10)).length + (0 + 1)) + n := by
            rw [hdm]; ring_nf

theorem parseDigits_natChars (n : Nat) (rest : List Char) (h : startsWithDigit rest = false) :
    parseDigits 0 (natChars n ++ rest) = (n, rest) := by
  rw [parseDigits_append (natChars n) 0 rest (natChars_digits n)]
  rw [natChars_val n 0]
  simp
  exact parseDigits_stop n rest h

theorem startsWithDigit_natChars (n : Nat) (l : List Char) :
    startsWithDigit (natChars n ++ l) = true := by
  cases hnc : natChars n with
  | nil => exact absurd hnc (natChars_ne_nil n)
  | cons c t =>
    have hc : (digitVal c).isSome := natChars_digits n c (by rw [hnc]; simp)
    simp [startsWithDigit, hc]

theorem parseIntChars_intChars (i : Int) (rest : List Char) (h : startsWithDigit rest = false) :
    parseIntChars (intChars i ++ rest) = some (i, rest) := by
  by_cases hneg : i < 0
  · rw [intChars, if_pos hneg, List.cons_append, parseIntChars.eq_def]
    simp only [startsWithDigit_natChars, if_true]
    rw [parseDigits_natChars _ _ h]
    simp
    omega
  · rw [intChars, if_neg hneg]
    cases hnc : natChars i.toNat with
    | nil => exact absurd hnc (natChars_ne_nil i.toNat)
    | cons c t =>
      have hc : (digitVal c).isSome := natChars_digits i.toNat c (by rw [hnc]; simp)
      have hcm : c ≠ '-' := by
        intro he
        rw [he] at hc
        exact absurd hc (by decide)
      have hpd := parseDigits_natChars i.toNat rest h
      rw [hnc, List.cons_append] at hpd
      rw [List.cons_append, parseIntChars.eq_def]
      simp only [hcm, if_false, hc, if_true]
      rw [hpd]
      simp
      omega

theorem stripPre_append (pre l : List Char) : stripPre pre (pre ++ l) = some l := by
  induction pre with
  | nil => rfl
  | cons p ps ih => simp [stripPre, ih]

theorem stripPre_refl (l : List Char) : stripPre l l = some [] := by
  have h := stripPre_append l []
  simpa using h

theorem parseBoolChars_boolChars (b : Bool) (rest : List Char) :
    parseBoolChars (boolChars b ++ rest) = some (b, rest) := by
  cases b
  · rfl
  · rfl

theorem trim_keep (l : List Char) (a b : Char) (ha : l.head? = some a) (hga : goIsSpace a = false)
    (hb : l.getLast? = some b) (hgb : goIsSpace b = false) : trimSpaceL l = l := by
  unfold trimSpaceL
  cases l with
  | nil => simp at ha
  | cons c t =>
    have hca : c = a := by simpa using ha
    rw [List.dropWhile_cons, if_neg (by rw [hca, hga]; simp)]
    cases hr : (c :: t).reverse with
    | nil => simp at hr
    | cons d u =>
      have hd : d = b := by
        have hh : (c :: t).getLast? = some d := by
          rw [← List.head?_reverse, hr]
          rfl
        rw [hb] at hh
        exact (Option.some_inj.mp hh).symm
      rw [List.dropWhile_cons, if_neg (by rw [hd, hgb]; simp)]
      rw [← hr, List.reverse_reverse]

theorem marshal_head (inp : Input) : (jsonMarshalInputL inp).head? = some lbrace := by
  simp [jsonMarshalInputL, seg1]

theorem marshal_last (inp : Input) : (jsonMarshalInputL inp).getLast? = some rbrace := by
  unfold jsonMarshalInputL
  rw [List.getLast?_append]
  rfl

theorem trim_marshal (inp : Input) : trimSpaceL (jsonMarshalInputL inp) = jsonMarshalInputL inp :=
  trim_keep _ lbrace rbrace (marshal_head inp) (by decide) (marshal_last inp) (by decide)

theorem startsWithDigit_seg3 (l : List Char) : startsWithDigit (seg3 ++ l) = false := by
  simp [seg3, startsWithDigit, digitVal]

theorem jsonParseL_marshalL (inp : Input) : jsonParseInputL (jsonMarshalInputL inp) = some inp := by
  unfold jsonParseInputL jsonMarshalInputL
  simp only [List.append_assoc]
  simp only [stripPre_append, parseQ_qstr, parseIntChars_intChars, startsWithDigit_seg3,
    parseBoolChars_boolChars, stripPre_refl]

theorem buildJobDefinition_ok (E : Encrypter) (info : HarnessCodeInfo) (r : Repo) (d : Definition)
    (h : buildJobDefinition E info r = Except.ok d) :
    d.UID = exportRepoJobUidFor r.ID ∧ d.JobType = jobType ∧
    d.MaxRetries = exportJobMaxRetries ∧ d.Timeout = exportJobMaxDuration := by
  unfold buildJobDefinition at h
  cases hE : encodeRequest E (jobDataFor info r) with
  | error e => rw [hE] at h; cases h
  | ok data =>
    rw [hE] at h
    cases h
    exact ⟨rfl, rfl, rfl, rfl⟩

theorem buildJobDefinitions_length (E : Encrypter) (info : HarnessCodeInfo) :
    ∀ repos defs, buildJobDefinitions E info repos = Except.ok defs →
      defs.length = repos.length := by
  intro repos
  induction repos with
  | nil => intro defs h; cases h; rfl
  | cons r rest ih =>
    intro defs h
    unfold buildJobDefinitions at h
    cases hd : buildJobDefinition E info r with
    | error e => rw [hd] at h; cases h
    | ok d =>
      rw [hd] at h
      cases hds : buildJobDefinitions E info rest with
      | error e => rw [hds] at h; cases h
      | ok ds =>
        rw [hds] at h
        cases h
        simp [ih ds hds]

theorem buildJobDefinitions_get (E : Encrypter) (info : HarnessCodeInfo) :
    ∀ repos defs i di ri, buildJobDefinitions E info repos = Except.ok defs →
      defs.get? i = some di → repos.get? i = some ri →
      di.UID = exportRepoJobUidFor ri.ID ∧ di.JobType = jobType ∧
      di.MaxRetries = exportJobMaxRetries ∧ di.Timeout = exportJobMaxDuration := by
  intro repos
  induction repos with
  | nil =>
    intro defs i di ri h hdi hri
    cases i <;> cases hri
  | cons r rest ih =>
    intro defs i di ri h hdi hri
    unfold buildJobDefinitions at h
    cases hd : buildJobDefinition E info r with
    | error e => rw [hd] at h; cases h
    | ok d =>
      rw [hd] at h
      cases hds : buildJobDefinitions E info rest with
      | error e => rw [hds] at h; cases h
      | ok ds =>
        rw [hds] at h
        cases h
        cases i with
        | zero =>
          have hdd : d = di := by simpa using hdi
          have hrr : r = ri := by simpa using hri
          subst hdd
          subst hrr
          exact buildJobDefinition_ok E info r d hd
        | succ n =>
          exact ih ds n di ri hds hdi hri

theorem buildJobDefinitions_error_of (E : Encrypter) (info : HarnessCodeInfo) :
    ∀ pre r post e,
      (∀ r' ∈ pre, ∃ d, buildJobDefinition E info r' = Except.ok d) →
      buildJobDefinition E info r = Except.error e →
      buildJobDefinitions E info (pre ++ r :: post) = Except.error e := by
  intro pre
  induction pre with
  | nil =>
    intro r post e _ herr
    unfold buildJobDefinitions
    rw [List.nil_append]
    show (match buildJobDefinition E info r with
          | Except.error e => Except.error e
          | Except.ok d =>
            match buildJobDefinitions E info post with
            | Except.error e => Except.error e
            | Except.ok ds => Except.ok (d :: ds)) = Except.error e
    rw [herr]
  | cons p ps ih =>
    intro r post e hok herr
    obtain ⟨d, hd⟩ := hok p (by simp)
    rw [List.cons_append]
    show (match buildJobDefinition E info p with
          | Except.error e => Except.error e
          | Except.ok d =>
            match buildJobDefinitions E info (ps ++ r :: post) with
            | Except.error e => Except.error e
            | Except.ok ds => Except.ok (d :: ds)) = Except.error e
    rw [hd, ih r post e (fun r' hr' => hok r' (by simp [hr'])) herr]


/-- C1: on a job whose payload decodes, whose repository is found, whose
remote creation succeeds and whose push returns no error, the source does
not return success and does not publish the notification: line 146 calls
`err.Error()` on the nil push error, a runtime panic, so the success return
and the publish at lines 158-162 are unreachable.  This theorem evaluates
the embedded `Handle` at such a job: the payload decodes, the push result is
a nil error, and the outcome is the panic with no published event. -/
theorem c1_successful_push_panics :
    getJobInput okDeps.encrypter sampleData = Except.ok sampleInput ∧
    okDeps.pushRes = none ∧
    Handle okDeps sampleData =
      { result := GoResult.panics, deleteCalls := [], sseEvents := [], pushAttempted := true } :=
  ⟨rfl, rfl, rfl⟩

/-- C2 counterexample: a job whose push fails with an error containing
"empty" satisfies the claim's hypothesis, and `Handle` returns success with
no delete call — but publishes no completion notification, contradicting the
claim's "still publishes the completion notification". -/
theorem c2_counterexample :
    getJobInput c2Deps.encrypter sampleData = Except.ok sampleInput ∧
    c2Deps.pushRes = some ("the source repository is empty") ∧
    goContains "the source repository is empty" ("empty") = true ∧
    Handle c2Deps sampleData =
      { result := GoResult.ok, deleteCalls := [], sseEvents := [], pushAttempted := true } ∧
    ¬ ((Handle c2Deps sampleData).sseEvents.length = 1) :=
  ⟨rfl, rfl, by decide, rfl, by decide⟩

/-- C2 amended: for every job in which the push fails with an error whose
message contains "empty", `Handle` returns success and performs no delete
call on the remote, and publishes no completion notification (the source
returns at line 147 before any publish). -/
theorem c2_empty_push_succeeds_no_delete_no_publish
    (d : HandleDeps) (data : String) (input : Input) (repo : Repo) (remote : RemoteRepo)
    (u : String) (msg : String)
    (hdec : getJobInput d.encrypter data = Except.ok input)
    (hcli : d.clientRes = Except.ok ())
    (hfind : d.findRes = Except.ok repo)
    (hcreate : d.createRes = Except.ok remote)
    (hurl : d.urlParseRes = Except.ok u)
    (hpush : d.pushRes = some msg)
    (hempty : goContains msg ("empty") = true) :
    Handle d data =
      { result := GoResult.ok, deleteCalls := [], sseEvents := [], pushAttempted := true } := by
  simp [Handle, modifyUrl, hdec, hcli, hfind, hcreate, hurl, hpush, hempty]

/-- C2 witness: the amended statement applied to a concrete empty-push
job. -/
theorem c2_witness :
    Handle c2Deps sampleData =
      { result := GoResult.ok, deleteCalls := [], sseEvents := [], pushAttempted := true } :=
  c2_empty_push_succeeds_no_delete_no_publish c2Deps sampleData sampleInput sampleRepo
    sampleRemote ("https://host/svc-a.git") ("the source repository is empty")
    rfl rfl rfl rfl rfl rfl (by decide)

/-- C3 counterexample: a terminal path that passes the `CreatingRemote`
state (remote creation succeeded) but terminates in the URL-parse failure at
lines 137-140 publishes zero notifications, contradicting "exactly once on
every terminal path that reaches or passes the CreatingRemote state". -/
theorem c3_counterexample :
    c3Deps.createRes = Except.ok sampleRemote ∧
    getJobInput c3Deps.encrypter sampleData = Except.ok sampleInput ∧
    Handle c3Deps sampleData =
      { result := GoResult.err ("parse error"), deleteCalls := [], sseEvents := [],
        pushAttempted := false } ∧
    ¬ ((Handle c3Deps sampleData).sseEvents.length = 1) :=
  ⟨rfl, rfl, rfl, by decide⟩

/-- C3 amended: the completion notification is published at most once per
execution, and exactly once precisely on the two terminal paths that publish
— remote creation failed, or the push failed with a non-empty-repository
error.  All other paths publish zero times: decode, client-construction and
repository-lookup failures, the URL-parse failure, the empty-push success
path, and the nil-push-error path (which panics before the publish call). -/
theorem c3_notification_count (d : HandleDeps) (data : String) :
    (Handle d data).sseEvents.length ≤ 1 ∧
    ((Handle d data).sseEvents.length = 1 ↔
      remoteCreateFailedPath d data ∨ pushFailedNonEmptyPath d data) := by
  unfold Handle remoteCreateFailedPath pushFailedNonEmptyPath
  cases hdec : getJobInput d.encrypter data with
  | error e => simp [hdec]
  | ok input =>
    cases hcli : d.clientRes with
    | error e => simp [hdec, hcli]
    | ok u =>
      cases hfind : d.findRes with
      | error e => simp [hdec, hcli, hfind]
      | ok repo =>
        cases hcreate : d.createRes with
        | error e => simp [hdec, hcli, hfind, hcreate]
        | ok rr =>
          cases hurl : d.urlParseRes with
          | error e => simp [hdec, hcli, hfind, hcreate, modifyUrl, hurl]
          | ok uu =>
            cases hpush : d.pushRes with
            | none => simp [hdec, hcli, hfind, hcreate, modifyUrl, hurl, hpush]
            | some msg =>
              by_cases hemp : goContains msg ("empty") = true
              · simp [hdec, hcli, hfind, hcreate, modifyUrl, hurl, hpush, hemp]
              · simp [hdec, hcli, hfind, hcreate, modifyUrl, hurl, hpush, hemp]

/-- C4: for every job in which the push fails with an error not classified
as empty-repository, `Handle` makes exactly one delete call, on the
just-created remote's uid, and ends failed with the original push error —
for every outcome of the delete call (`d.deleteRes` is unconstrained, so a
failing delete, which the source only logs, does not change the result). -/
theorem c4_push_failure_deletes_once_returns_push_error
    (d : HandleDeps) (data : String) (input : Input) (repo : Repo) (remote : RemoteRepo)
    (u : String) (msg : String)
    (hdec : getJobInput d.encrypter data = Except.ok input)
    (hcli : d.clientRes = Except.ok ())
    (hfind : d.findRes = Except.ok repo)
    (hcreate : d.createRes = Except.ok remote)
    (hurl : d.urlParseRes = Except.ok u)
    (hpush : d.pushRes = some msg)
    (hnotEmpty : goContains msg ("empty") = false) :
    Handle d data =
      { result := GoResult.err msg, deleteCalls := [remote.UID],
        sseEvents := [publishSSE repo], pushAttempted := true } := by
  simp [Handle, modifyUrl, hdec, hcli, hfind, hcreate, hurl, hpush, hnotEmpty]

/-- C4 witness: the spec's scenario — push fails with "network timeout"
while the delete call itself fails — ends failed with the push error after
exactly one delete of the created remote. -/
theorem c4_witness :
    c4Deps.deleteRes = some ("remote delete failed") ∧
    Handle c4Deps sampleData =
      { result := GoResult.err ("network timeout"), deleteCalls := [sampleRemote.UID],
        sseEvents := [publishSSE sampleRepo], pushAttempted := true } :=
  ⟨rfl, c4_push_failure_deletes_once_returns_push_error c4Deps sampleData sampleInput sampleRepo
    sampleRemote ("https://host/svc-a.git") ("network timeout")
    rfl rfl rfl rfl rfl rfl (by decide)⟩

/-- C5: for every job in which the remote-creation call fails, `Handle`
makes no delete call, still publishes the completion notification, and
returns the creation error. -/
theorem c5_create_failure_no_delete_publishes_fails
    (d : HandleDeps) (data : String) (input : Input) (repo : Repo) (e : String)
    (hdec : getJobInput d.encrypter data = Except.ok input)
    (hcli : d.clientRes = Except.ok ())
    (hfind : d.findRes = Except.ok repo)
    (hcreate : d.createRes = Except.error e) :
    Handle d data =
      { result := GoResult.err e, deleteCalls := [], sseEvents := [publishSSE repo],
        pushAttempted := false } := by
  simp [Handle, hdec, hcli, hfind, hcreate]

/-- C5 witness: the statement applied to a concrete failing remote
creation. -/
theorem c5_witness :
    Handle c5Deps sampleData =
      { result := GoResult.err ("create failed"), deleteCalls := [],
        sseEvents := [publishSSE sampleRepo], pushAttempted := false } :=
  c5_create_failure_no_delete_publishes_fails c5Deps sampleData sampleInput sampleRepo
    ("create failed") rfl rfl rfl rfl

/-- C9: when the engine reports no progress records for the group, the
orchestrator returns exactly the one synthetic failed entry, never an empty
sequence. -/
theorem c9_no_records_single_failed
    (sched : String → Except String (List JobProgress)) (spaceId : Int)
    (h : sched (getJobGroupId spaceId) = Except.ok []) :
    GetProgress sched spaceId = Except.ok [failProgress] ∧
    List.length [failProgress] = 1 ∧ failProgress.status = JobStatus.failed :=
  ⟨by simp [GetProgress, h], rfl, rfl⟩

/-- C9 witness: the statement applied to an engine with no records. -/
theorem c9_witness :
    GetProgress (fun _ => Except.ok []) 0 = Except.ok [failProgress] ∧
    List.length [failProgress] = 1 ∧ failProgress.status = JobStatus.failed :=
  c9_no_records_single_failed (fun _ => Except.ok []) 0 rfl

/-- C10: when the created remote's clone URL fails to parse, `Handle`
returns the parse error without attempting the push, without any delete
call, and without publishing any notification. -/
theorem c10_url_parse_failure_returns_silently
    (d : HandleDeps) (data : String) (input : Input) (repo : Repo) (remote : RemoteRepo)
    (e : String)
    (hdec : getJobInput d.encrypter data = Except.ok input)
    (hcli : d.clientRes = Except.ok ())
    (hfind : d.findRes = Except.ok repo)
    (hcreate : d.createRes = Except.ok remote)
    (hurl : d.urlParseRes = Except.error e) :
    Handle d data =
      { result := GoResult.err e, deleteCalls := [], sseEvents := [],
        pushAttempted := false } := by
  simp [Handle, modifyUrl, hdec, hcli, hfind, hcreate, hurl]

/-- C10 witness: the statement applied to a concrete parse failure. -/
theorem c10_witness :
    Handle c10Deps sampleData =
      { result := GoResult.err ("invalid url"), deleteCalls := [], sseEvents := [],
        pushAttempted := false } :=
  c10_url_parse_failure_returns_silently c10Deps sampleData sampleInput sampleRepo sampleRemote
    ("invalid url") rfl rfl rfl rfl rfl

/-- C6: decoding inverts encoding — for every export request, serializing to
JSON, trimming whitespace, encrypting and base64-encoding, then running the
decoder (`getJobInput`: base64-decode, decrypt, JSON-parse) yields the
original request.  Stated with `bind`, so the theorem also shows encoding
itself succeeds. -/
theorem c6_encode_decode_roundtrip (inp : Input) :
    (encodeRequest specEncrypter inp).bind (getJobInput specEncrypter) = Except.ok inp := by
  have htrim : trimSpace (jsonMarshalInput inp) = jsonMarshalInput inp := by
    unfold trimSpace jsonMarshalInput
    rw [data_mk, trim_marshal]
  have hb64 : b64DecodeL (b64EncodeL (encBytes (jsonMarshalInputL inp))) =
      some (encBytes (jsonMarshalInputL inp)) := b64_roundtrip _ (encBytes_lt _)
  unfold encodeRequest
  simp only [htrim, specEncrypter, Except.bind]
  unfold getJobInput base64Decode base64Encode
  simp only [specEncrypter, jsonMarshalInput, data_mk, hb64, decBytes_encBytes, jsonParseInput,
    jsonParseL_marshalL]

/-- C7: a successfully submitted non-empty batch carries the group identity
derived from the space id, one envelope per repository, and the i-th envelope
has identity derived from the i-th repository's id, the fixed type tag,
max-retries 1 and a 45-minute timeout (in nanoseconds). -/
theorem c7_batch_shape (E : Encrypter) (spaceId : Int) (info : HarnessCodeInfo)
    (repos : List Repo) (gid : String) (defs : List Definition)
    (hne : repos ≠ [])
    (hrun : RunMany E spaceId info repos = RunManyOut.submitted gid defs) :
    gid = "export_space_" ++ String.mk (intChars spaceId) ∧
    defs.length = repos.length ∧
    ∀ i di ri, defs.get? i = some di → repos.get? i = some ri →
      di.UID = "export_repo_" ++ String.mk (intChars ri.ID) ∧
      di.JobType = "repository_export" ∧
      di.MaxRetries = 1 ∧
      di.Timeout = 45 * 60 * 1000000000 := by
  unfold RunMany at hrun
  cases hb : buildJobDefinitions E info repos with
  | error e => rw [hb] at hrun; cases hrun
  | ok ds =>
    rw [hb] at hrun
    cases hrun
    refine ⟨rfl, buildJobDefinitions_length E info repos defs hb, ?_⟩
    intro i di ri hdi hri
    exact buildJobDefinitions_get E info repos defs i di ri hb hdi hri

/-- C7 witness: the batch-shape statement applied to a concrete two-element
repository list submitted under space id 9. -/
theorem c7_witness :
    c7Repos ≠ [] ∧
    c7Gid = "export_space_" ++ String.mk (intChars 9) ∧
    c7Defs.length = c7Repos.length ∧
    (c7Defs.get? 0).map Definition.UID = some ("export_repo_" ++ String.mk (intChars 42)) ∧
    (c7Defs.get? 1).map Definition.UID = some ("export_repo_" ++ String.mk (intChars 7)) ∧
    (c7Defs.get? 0).map Definition.MaxRetries = some 1 ∧
    (c7Defs.get? 1).map Definition.Timeout = some (45 * 60 * 1000000000) := by
  have h := c7_batch_shape specEncrypter 9 sampleInfo c7Repos c7Gid c7Defs (by decide) rfl
  exact ⟨by decide, h.1, h.2.1, rfl, rfl, rfl, rfl⟩

/-- C8: if the encryption of one repository's export request fails, the whole
batch submission returns that encoding error (with the source's wrapping) and
nothing is handed to the job engine — `RunManyOut.failed` is the branch in
which `scheduler.RunJobs` is never invoked. -/
theorem c8_encode_failure_aborts_batch (E : Encrypter) (spaceId : Int) (info : HarnessCodeInfo)
    (pre post : List Repo) (r : Repo) (e : String)
    (hok : ∀ r' ∈ pre, ∃ d, buildJobDefinition E info r' = Except.ok d)
    (henc : E.enc (trimSpace (jsonMarshalInput (jobDataFor info r))) = Except.error e) :
    RunMany E spaceId info (pre ++ r :: post) =
      RunManyOut.failed ("failed to encrypt job input: " ++ e) := by
  have herr : buildJobDefinition E info r =
      Except.error ("failed to encrypt job input: " ++ e) := by
    unfold buildJobDefinition encodeRequest
    simp only [henc]
  unfold RunMany
  rw [buildJobDefinitions_error_of E info pre r post _ hok herr]

/-- C8 witness: a batch of one repository with an encrypter whose key is
unavailable fails with the wrapped encryption error and submits nothing. -/
theorem c8_witness :
    RunMany failingEncrypter 9 sampleInfo [sampleRepo] =
      RunManyOut.failed ("failed to encrypt job input: " ++ "key unavailable") :=
  c8_encode_failure_aborts_batch failingEncrypter 9 sampleInfo [] [] sampleRepo
    ("key unavailable") (by simp) rfl

end Exporter
